import Mathlib

/-!
Shallow embedding of the editing core of the `mino-editor` repository
(`src/buffer.rs`, `src/history.rs`, `src/diff.rs`, `src/lang.rs`,
`src/config.rs`, `src/highlight.rs`, `src/util.rs`) together with proofs
checking the natural-language specification against it.

Modelling conventions:
* Rust `String` / `&str` become `List Char`; indices are character
  indices (the source text manipulated by the claims is ASCII, where
  Rust's byte indices and char indices coincide).
* `usize` becomes `Nat`; Rust `a - b` on `usize` is truncated
  subtraction except where the source can underflow, in which case the
  surrounding operation is modelled as a panic (`Option`).
* Operations that can panic and whose panic behaviour a claim is about
  return `Option`; operations whose documented preconditions rule the
  panic out are modelled totally with `List.take`/`List.drop`/`getD`,
  which agree with Rust slicing on in-range inputs.
-/

namespace Mino

/-- Embeds `util::Pos` (a `(x, y)` pair of `usize`, `x` first). -/
structure Pos where
  x : Nat
  y : Nat
deriving DecidableEq, Repr

/-- Modelled from the spec: the source uses `from + Pos(row.len(), 0)`
(`buffer.rs` line 208) but no `impl Add for Pos` appears anywhere under
`src/`; the spec describes the result as `to` computed "from `from` plus
the shape of `removed_text_rows` ... same row if one line", i.e.
componentwise addition. -/
def Pos.add (a b : Pos) : Pos := Pos.mk (a.x + b.x) (a.y + b.y)

/-- Embeds `config::Config`, restricted to the one field the editing
core reads (`tab_stop`); the remaining fields (theme, durations,
cursor style, colour support) are never consulted by the code under
verification. -/
structure Config where
  tab_stop : Nat
deriving DecidableEq, Repr

/-- Embeds `lang::Language`. -/
inductive Language where
  | Text
  | C
  | Cpp
  | Rust
  | Python
  | Js
  | Ts
  | Unknown
deriving DecidableEq, Repr

/-- Embeds `lang::Syntax` (named `SyntaxTable` here because `Syntax` is
reserved). `keywords` etc. hold the per-language word lists;
`flags` is the `u8` flag byte. -/
structure SyntaxTable where
  lang : Language
  keywords : List (List Char)
  flow_keywords : List (List Char)
  common_types : List (List Char)
  meta_keywords : List (List Char)
  path_access_delims : List (List Char)
  ln_comment : Option (List Char)
  multi_comment : Option (List Char × List Char)
  flags : Nat
deriving DecidableEq, Repr

/-- `SyntaxFlags::HIGHLIGHT_NUMBERS = 1` (`lang.rs`). -/
def HIGHLIGHT_NUMBERS : Nat := 1

/-- `SyntaxFlags::HIGHLIGHT_STRINGS = 2` (`lang.rs`). -/
def HIGHLIGHT_STRINGS : Nat := 2

/-- `SyntaxFlags::HIGHLIGHT_IDENTS = 4` (`lang.rs`). -/
def HIGHLIGHT_IDENTS : Nat := 4

/-- `SyntaxFlags::NESTED_COMMENTS = 8` (`lang.rs`). -/
def NESTED_COMMENTS : Nat := 8

/-- `SyntaxFlags::CAPITAL_AS_TYPES = 8` (`lang.rs`). -/
def CAPITAL_AS_TYPES : Nat := 8

/-- The union of all defined `SyntaxFlags` bits; `bitflags`'
`from_bits_truncate` masks an arbitrary `u8` down to these. -/
def ALL_FLAGS : Nat :=
  HIGHLIGHT_NUMBERS ||| HIGHLIGHT_STRINGS ||| HIGHLIGHT_IDENTS |||
  NESTED_COMMENTS ||| CAPITAL_AS_TYPES

/-- Embeds the `checkflags!(FLAG in bits)` macro (`util.rs`):
`SyntaxFlags::from_bits_truncate(bits).contains(FLAG)`. -/
def checkflags (flag bits : Nat) : Bool :=
  (bits &&& ALL_FLAGS) &&& flag == flag

/-- Rust `char::is_ascii_whitespace`: space, tab, LF, FF, CR. -/
def is_ascii_whitespace (c : Char) : Bool :=
  c == ' ' || c == '\t' || c == '\n' || c == '\x0C' || c == '\r'

/-- Rust `char::is_ascii_punctuation`: `!../`, `:..@`, `[..` + backtick,
`{..~` (code points 0x21-0x2F, 0x3A-0x40, 0x5B-0x60, 0x7B-0x7E). -/
def is_ascii_punctuation (c : Char) : Bool :=
  (0x21 ≤ c.toNat && c.toNat ≤ 0x2F) ||
  (0x3A ≤ c.toNat && c.toNat ≤ 0x40) ||
  (0x5B ≤ c.toNat && c.toNat ≤ 0x60) ||
  (0x7B ≤ c.toNat && c.toNat ≤ 0x7E)

/-- Embeds `lang::is_sep`. -/
def is_sep (ch : Char) : Bool :=
  is_ascii_whitespace ch || ch == '\x00' ||
  (is_ascii_punctuation ch && ch != '_')

/-- Embeds `highlight::SyntaxHighlight` as used by `buffer.rs`
(`Type` is spelled `Typ` because `Type` is reserved). -/
inductive SyntaxHighlight where
  | Normal
  | Number
  | String
  | Comment
  | Keyword
  | Flowword
  | Typ
  | Metaword
  | Ident
  | Function
  | Path
deriving DecidableEq, Repr

/-- Embeds `highlight::SelectHighlight`. -/
inductive SelectHighlight where
  | Normal
  | Search
  | Select
deriving DecidableEq, Repr

/-- Embeds `highlight::Highlight` (field `syntax` is spelled `syn`
because `syntax` is reserved). -/
structure Highlight where
  syn : SyntaxHighlight
  select : SelectHighlight
deriving DecidableEq, Repr

/-- `Highlight::default()`: `Normal` / `Normal`. -/
def Highlight.default : Highlight :=
  Highlight.mk SyntaxHighlight.Normal SelectHighlight.Normal

/-- `Highlight::from_syntax_hl`. -/
def Highlight.from_syntax_hl (s : SyntaxHighlight) : Highlight :=
  Highlight.mk s SelectHighlight.Normal

/-- `Highlight::syntax_hl`. -/
def Highlight.syntax_hl (h : Highlight) : SyntaxHighlight := h.syn

/-- One endpoint of a Rust `impl RangeBounds<usize>` value
(`std::ops::Bound`). -/
inductive Bound where
  | unbounded
  | included (n : Nat)
  | excluded (n : Nat)
deriving DecidableEq, Repr

/-- Embeds `Row::index_range` (`buffer.rs` lines 474-516): computes the
clamped `start_idx..end_idx` from the given bounds; the source's early
`return 0..0` paths are the `(0, 0)` results. -/
def index_range (str : List Char) (size : Nat) (lo hi : Bound) : Nat × Nat :=
  if str.isEmpty then (0, 0)
  else
    let start_idx : Option Nat :=
      match lo with
      | Bound.unbounded => some 0
      | Bound.included i => some (if i ≥ size then size - 1 else i)
      | Bound.excluded i => if i ≥ size - 1 then none else some (i + 1)
    let end_idx : Option Nat :=
      match hi with
      | Bound.unbounded => some size
      | Bound.included i => some (if i ≥ size then size else i + 1)
      | Bound.excluded i =>
          if i > size then none else if i == 0 then none else some i
    match start_idx, end_idx with
    | some a, some b => (a, b)
    | _, _ => (0, 0)

/-- Rust slice `&s[a..b]` restricted to in-range arguments
(`a ≤ b ≤ s.len()`); on such arguments it equals
`(s.take b).drop a`. -/
def sliceTotal (s : List Char) (a b : Nat) : List Char :=
  (s.take b).drop a

/-- Rust slice `&s[a..b]` with its panic modelled: `none` when
`a > b` or `b > s.len()` (the panicking cases of string slicing). -/
def slicePanic (s : List Char) (a b : Nat) : Option (List Char) :=
  if a ≤ b ∧ b ≤ s.length then some (sliceTotal s a b) else none

/-- Embeds `row::Row` (`buffer.rs`). -/
structure Row where
  chars : List Char
  render : List Char
  hl : List Highlight
  has_tabs : Bool
  is_dirty : Bool
deriving DecidableEq, Repr

/-- `Row::new()`. -/
def Row.new : Row := Row.mk [] [] [] false false

/-- `Row::size` (`chars.len()`). -/
def Row.size (r : Row) : Nat := r.chars.length

/-- `Row::rsize` (`render.len()`). -/
def Row.rsize (r : Row) : Nat := r.render.length

/-- `Row::chars_at` with the slicing panic modelled (`&self.chars[...]`
after `index_range`). -/
def Row.chars_at (r : Row) (lo hi : Bound) : Option (List Char) :=
  let p := index_range r.chars r.size lo hi
  slicePanic r.chars p.1 p.2

/-- `Row::rchars_at` (`&self.render[...]` after `index_range`), total
form: every call site inside `update_highlight` produces an in-range
slice, where this agrees with the Rust slicing. -/
def rchars_sub (render : List Char) (lo hi : Bound) : List Char :=
  let p := index_range render render.length lo hi
  sliceTotal render p.1 p.2

/-- The render-building loop of `Row::update` (`buffer.rs` lines
520-534): each tab becomes exactly `tab_stop` spaces, other characters
are copied. -/
def render_of_chars (tab_stop : Nat) : List Char → List Char
  | [] => []
  | ch :: rest =>
      (if ch == '\t' then List.replicate tab_stop ' ' else [ch]) ++
        render_of_chars tab_stop rest

/-- The result of one iteration of the `update_highlight` scan loop
(`buffer.rs` lines 554-851): either the `break` after a line comment
(with the final `hl`), or one pass of the loop body ending in a
`continue`/fall-through (with the new scan state). -/
inductive HlAction where
  | terminate (hl : List Highlight)
  | advance (hl : List Highlight) (i : Nat) (ips : Bool)
      (quote : Option Char) (nested : Nat)
deriving DecidableEq, Repr

/-- The "Highlight Single-line Comment" branch (`buffer.rs` 557-565):
on a match, pad `hl` with `Comment` to the end of the render text and
break. -/
def hl_ln_comment (stx : SyntaxTable) (render : List Char) (i : Nat)
    (hl : List Highlight) (quote : Option Char) : Option HlAction :=
  match stx.ln_comment with
  | some lc =>
      if quote.isNone &&
          lc == rchars_sub render (Bound.included i) (Bound.excluded (i + lc.length)) then
        some (HlAction.terminate (hl ++
          List.replicate (render.length - hl.length)
            (Highlight.from_syntax_hl SyntaxHighlight.Comment)))
      else none
  | none => none

/-- The "Highlight Multi-line Comment" branch (`buffer.rs` 567-607):
start marker opens (depth + 1); inside a comment, the end marker closes
(depth - 1 with `NESTED_COMMENTS`, else reset to 0) and restores
separator state, otherwise a single `Comment` tag is emitted. -/
def hl_multi_comment (stx : SyntaxTable) (render : List Char) (i : Nat)
    (hl : List Highlight) (ips : Bool) (quote : Option Char)
    (nested : Nat) : Option HlAction :=
  match stx.multi_comment with
  | some (mc_start, mc_end) =>
      if quote.isNone then
        if mc_start == rchars_sub render (Bound.included i)
            (Bound.excluded (i + mc_start.length)) then
          some (HlAction.advance
            (hl ++ List.replicate mc_start.length
              (Highlight.from_syntax_hl SyntaxHighlight.Comment))
            (i + mc_start.length) ips quote (nested + 1))
        else if nested > 0 then
          if mc_end == rchars_sub render (Bound.included i)
              (Bound.excluded (i + mc_end.length)) then
            some (HlAction.advance
              (hl ++ List.replicate mc_end.length
                (Highlight.from_syntax_hl SyntaxHighlight.Comment))
              (i + mc_end.length) true quote
              (if checkflags NESTED_COMMENTS stx.flags then nested - 1 else 0))
          else
            some (HlAction.advance
              (hl ++ [Highlight.from_syntax_hl SyntaxHighlight.Comment])
              (i + 1) ips quote nested)
        else none
      else none
  | none => none

/-- The per-word test of the keyword/flowword/type/metaword blocks
(`buffer.rs` 614-616 and its three copies): the word matches the
upcoming render text and is followed by end-of-row or a separator. -/
def matchWordAt (render : List Char) (i : Nat) (w : List Char) : Bool :=
  w == rchars_sub render (Bound.included i) (Bound.excluded (i + w.length)) &&
  (render.length == i + w.length ||
    is_sep ((rchars_sub render (Bound.included (i + w.length))
      (Bound.included (i + w.length))).headD 'a'))

/-- One word block (`buffer.rs` 610-638 and its three copies): take the
first matching word of the list, tag its span, advance past it, and
recompute separator state from the following character. -/
def hl_words_one (render : List Char) (i : Nat) (hl : List Highlight)
    (quote : Option Char) (nested : Nat) (words : List (List Char))
    (tag : SyntaxHighlight) : Option HlAction :=
  match words.find? (fun w => matchWordAt render i w) with
  | some w =>
      some (HlAction.advance
        (hl ++ List.replicate w.length (Highlight.from_syntax_hl tag))
        (i + w.length)
        (match render.get? (i + w.length) with
         | some c => is_sep c
         | none => false)
        quote nested)
  | none => none

/-- The four word blocks in source order: keywords, control-flow
keywords, common types, metawords; each runs only in separator state
outside a quote (`buffer.rs` 609-731). -/
def hl_words (stx : SyntaxTable) (render : List Char) (i : Nat)
    (hl : List Highlight) (ips : Bool) (quote : Option Char)
    (nested : Nat) : Option HlAction :=
  if ips && quote.isNone then
    match hl_words_one render i hl quote nested stx.keywords
        SyntaxHighlight.Keyword with
    | some act => some act
    | none =>
      match hl_words_one render i hl quote nested stx.flow_keywords
          SyntaxHighlight.Flowword with
      | some act => some act
      | none =>
        match hl_words_one render i hl quote nested stx.common_types
            SyntaxHighlight.Typ with
        | some act => some act
        | none =>
          hl_words_one render i hl quote nested stx.meta_keywords
            SyntaxHighlight.Metaword
  else none

/-- The "Highlight Strings" branch (`buffer.rs` 733-759): inside a
quote, tag `String` (escape pairs take two characters), closing on the
delimiter; outside, `"` or `'` opens a quote. -/
def hl_strings (stx : SyntaxTable) (render : List Char) (i : Nat)
    (hl : List Highlight) (ips : Bool) (quote : Option Char)
    (nested : Nat) (ch : Char) : Option HlAction :=
  if checkflags HIGHLIGHT_STRINGS stx.flags then
    match quote with
    | some delim =>
        if ch == '\\' && i + 1 < render.length then
          some (HlAction.advance
            (hl ++ [Highlight.from_syntax_hl SyntaxHighlight.String,
                    Highlight.from_syntax_hl SyntaxHighlight.String])
            (i + 2) ips quote nested)
        else
          some (HlAction.advance
            (hl ++ [Highlight.from_syntax_hl SyntaxHighlight.String])
            (i + 1) true (if ch == delim then none else some delim) nested)
    | none =>
        if ch == '"' || ch == '\'' then
          some (HlAction.advance
            (hl ++ [Highlight.from_syntax_hl SyntaxHighlight.String])
            (i + 1) ips (some ch) nested)
        else none
  else none

/-- The "Highlight Number" branch (`buffer.rs` 761-772); note the Rust
operator precedence: `(flag && digit && (sep-or-number)) || (dot &&
number)`. -/
def hl_number (stx : SyntaxTable) (i : Nat) (hl : List Highlight)
    (ips : Bool) (quote : Option Char) (nested : Nat)
    (prev_hl : Highlight) (ch : Char) : Option HlAction :=
  if (checkflags HIGHLIGHT_NUMBERS stx.flags && ch.isDigit &&
        (ips || prev_hl.syntax_hl == SyntaxHighlight.Number)) ||
     (ch == '.' && prev_hl.syntax_hl == SyntaxHighlight.Number) then
    some (HlAction.advance
      (hl ++ [Highlight.from_syntax_hl SyntaxHighlight.Number])
      (i + 1) false quote nested)
  else none

/-- The "Highlight Identifiers" branch (`buffer.rs` 774-792), including
the capitalized-identifier-as-type start. -/
def hl_ident (stx : SyntaxTable) (i : Nat) (hl : List Highlight)
    (ips : Bool) (quote : Option Char) (nested : Nat)
    (prev_hl : Highlight) (ch : Char) : Option HlAction :=
  if checkflags HIGHLIGHT_IDENTS stx.flags &&
      (ips || prev_hl.syntax_hl == SyntaxHighlight.Ident) && !is_sep ch then
    some (HlAction.advance
      (hl ++ [Highlight.from_syntax_hl
        (if checkflags CAPITAL_AS_TYPES stx.flags && ips && ch.isUpper then
          SyntaxHighlight.Typ
        else SyntaxHighlight.Ident)])
      (i + 1) false quote nested)
  else none

/-- The capitalized-identifier continuation branch
(`buffer.rs` 794-804). -/
def hl_capital (stx : SyntaxTable) (i : Nat) (hl : List Highlight)
    (quote : Option Char) (nested : Nat) (prev_hl : Highlight)
    (ch : Char) : Option HlAction :=
  if checkflags CAPITAL_AS_TYPES stx.flags &&
      prev_hl.syntax_hl == SyntaxHighlight.Typ && !is_sep ch then
    some (HlAction.advance
      (hl ++ [Highlight.from_syntax_hl SyntaxHighlight.Typ])
      (i + 1) false quote nested)
  else none

/-- The backward reclassification walk shared by the Function and Path
branches (`buffer.rs` 809-822 / 830-843): starting at `pos` and moving
left, retag contiguous `Ident` tags until a non-`Ident` tag stops the
walk. -/
def rewrite_go (tag : SyntaxHighlight) : List Highlight → Nat → List Highlight
  | hl, pos =>
      match hl.get? pos with
      | some h =>
          if h.syntax_hl == SyntaxHighlight.Ident then
            let hl2 := hl.set pos (Highlight.from_syntax_hl tag)
            match pos with
            | 0 => hl2
            | p + 1 => rewrite_go tag hl2 p
          else hl
      | none => hl

/-- The `j = 1; while j <= i` wrapper of the backward walk: positions
`i-1, i-2, ...`; nothing happens at `i = 0`. -/
def rewrite_run (tag : SyntaxHighlight) (hl : List Highlight) (i : Nat) :
    List Highlight :=
  match i with
  | 0 => hl
  | k + 1 => rewrite_go tag hl k

/-- The fall-through tail of the loop body (`buffer.rs` 806-850):
Function reclassification on `(`, Path reclassification on a
path-delimiter match, then the default `Normal` tag with separator
state recomputed from the current character. -/
def hl_final (stx : SyntaxTable) (render : List Char) (i : Nat)
    (hl : List Highlight) (quote : Option Char) (nested : Nat)
    (prev_hl : Highlight) (ch : Char) : HlAction :=
  let hl1 :=
    if prev_hl.syntax_hl == SyntaxHighlight.Ident && ch == '(' then
      rewrite_run SyntaxHighlight.Function hl i
    else hl
  let hl2 :=
    if prev_hl.syntax_hl == SyntaxHighlight.Ident then
      stx.path_access_delims.foldl
        (fun acc pd =>
          if pd == rchars_sub render (Bound.included i)
              (Bound.excluded (i + pd.length)) then
            rewrite_run SyntaxHighlight.Path acc i
          else acc)
        hl1
    else hl1
  HlAction.advance (hl2 ++ [Highlight.default]) (i + 1) (is_sep ch)
    quote nested

/-- One full iteration of the `update_highlight` loop body in source
order. -/
def hl_step (stx : SyntaxTable) (render : List Char) (i : Nat)
    (hl : List Highlight) (ips : Bool) (quote : Option Char)
    (nested : Nat) (ch : Char) : HlAction :=
  let prev_hl := if i > 0 then hl.getD (i - 1) Highlight.default
    else Highlight.default
  match hl_ln_comment stx render i hl quote with
  | some act => act
  | none =>
    match hl_multi_comment stx render i hl ips quote nested with
    | some act => act
    | none =>
      match hl_words stx render i hl ips quote nested with
      | some act => act
      | none =>
        match hl_strings stx render i hl ips quote nested ch with
        | some act => act
        | none =>
          match hl_number stx i hl ips quote nested prev_hl ch with
          | some act => act
          | none =>
            match hl_ident stx i hl ips quote nested prev_hl ch with
            | some act => act
            | none =>
              match hl_capital stx i hl quote nested prev_hl ch with
              | some act => act
              | none => hl_final stx render i hl quote nested prev_hl ch

/-- The `while let Some((i, ch)) = next` scan loop of
`update_highlight`.  The loop always advances the iterator, so on
well-formed syntax tables (no empty comment markers or words) a fuel of
`render.length + 1` never runs out; an exhausted fuel models the
infinite loop a degenerate table would produce in the source. -/
def hl_go (stx : SyntaxTable) (render : List Char) :
    Nat → Nat → List Highlight → Bool → Option Char → Nat → List Highlight
  | 0, _, hl, _, _, _ => hl
  | fuel + 1, i, hl, ips, quote, nested =>
      match render.get? i with
      | none => hl
      | some ch =>
          match hl_step stx render i hl ips quote nested ch with
          | HlAction.terminate hl2 => hl2
          | HlAction.advance hl2 i2 ips2 q2 n2 =>
              hl_go stx render fuel i2 hl2 ips2 q2 n2

/-- Embeds `Row::update_highlight` (`buffer.rs` 540-852): unknown
language means all-`Normal` tags; otherwise the scan runs from index 0
with separator state, no quote, depth 0. -/
def Row.update_highlight (stx : SyntaxTable) (r : Row) : Row :=
  if stx.lang == Language.Unknown then
    { r with hl := List.replicate r.rsize Highlight.default }
  else
    { r with hl := hl_go stx r.render (r.render.length + 1) 0 [] true none 0 }

/-- Embeds `Row::update` (`buffer.rs` 519-537): rebuild `render` and
`has_tabs` from `chars`, then rebuild `hl`. -/
def Row.update (r : Row) (config : Config) (stx : SyntaxTable) : Row :=
  Row.update_highlight stx
    { r with
        render := render_of_chars config.tab_stop r.chars,
        has_tabs := r.chars.any (fun c => c == '\t') }

/-- Embeds `Row::from_chars`. -/
def Row.from_chars (chars : List Char) (config : Config)
    (stx : SyntaxTable) : Row :=
  Row.update { Row.new with chars := chars } config stx

/-- `Row::make_dirty`. -/
def Row.make_dirty (r : Row) : Row := { r with is_dirty := true }

/-- The loop of `Row::cx_to_rx` (`buffer.rs` 854-870): walk `chars`
with index `i`, breaking at `i == cx`; a tab advances `rx` to the next
multiple of the tab stop. -/
def cx_to_rx_go (ts cx : Nat) : List Char → Nat → Nat → Nat
  | [], _, rx => rx
  | ch :: rest, i, rx =>
      if i == cx then rx
      else cx_to_rx_go ts cx rest (i + 1)
        ((if ch == '\t' then rx + (ts - 1 - rx % ts) else rx) + 1)

/-- Embeds `Row::cx_to_rx`. -/
def Row.cx_to_rx (r : Row) (cx : Nat) (config : Config) : Nat :=
  cx_to_rx_go config.tab_stop cx r.chars 0 0

/-- The loop of `Row::rx_to_cx` (`buffer.rs` 872-891): walk `chars`
accumulating the render column, returning the first char index whose
rendered span passes `rx`. -/
def rx_to_cx_go (ts rx : Nat) : List Char → Nat → Nat → Nat
  | [], _, cx => cx
  | ch :: rest, cur_rx, cx =>
      let cur2 := (if ch == '\t' then cur_rx + (ts - 1 - cur_rx % ts) else cur_rx) + 1
      if cur2 > rx then cx else rx_to_cx_go ts rx rest cur2 (cx + 1)

/-- Embeds `Row::rx_to_cx`. -/
def Row.rx_to_cx (r : Row) (rx : Nat) (config : Config) : Nat :=
  rx_to_cx_go config.tab_stop rx r.chars 0 0

/-- Embeds `diff::Diff`: an insertion or removal of a row span at a
position. -/
inductive Diff where
  | Insert (pos : Pos) (rows : List (List Char))
  | Remove (pos : Pos) (rows : List (List Char))
deriving DecidableEq, Repr

/-- `Diff::inverse`: swap the tag, keep the payload. -/
def Diff.inverse : Diff → Diff
  | Diff.Insert pos s => Diff.Remove pos s
  | Diff.Remove pos s => Diff.Insert pos s

/-- `history::DEPTH`. -/
def DEPTH : Nat := 50

/-- `CircularBuffer::<DEPTH, Diff>::push_back`: append at the back,
silently evicting the front element when the buffer is full. -/
def cb_push_back (l : List Diff) (d : Diff) : List Diff :=
  if l.length < DEPTH then l ++ [d] else l.drop 1 ++ [d]

/-- Embeds `history::History`: `redo` is the bounded applied stack (a
`CircularBuffer<50, Diff>`, back = most recent), `undo` the unbounded
undone stack (a `Vec<Diff>`, back = most recent). -/
structure History where
  redo : List Diff
  undo : List Diff
deriving DecidableEq, Repr

/-- `History::new()`. -/
def History.new : History := History.mk [] []

/-- `History::perform`: push onto the applied stack, clear the undone
stack. -/
def History.perform (h : History) (d : Diff) : History :=
  History.mk (cb_push_back h.redo d) []

/-- `History::undo` (named `undo_step` because `undo` is the field
name): `None` when the applied stack is empty, else move the popped
diff's inverse onto the undone stack. -/
def History.undo_step (h : History) : Option History :=
  match h.redo.getLast? with
  | none => none
  | some d => some (History.mk h.redo.dropLast (h.undo ++ [d.inverse]))

/-- `History::redo` (named `redo_step` because `redo` is the field
name): `None` when the undone stack is empty, else move the popped
diff's inverse back onto the applied stack. -/
def History.redo_step (h : History) : Option History :=
  match h.undo.getLast? with
  | none => none
  | some d => some (History.mk (cb_push_back h.redo d.inverse) h.undo.dropLast)

/-- `History::current`: the top of the applied stack. -/
def History.current (h : History) : Option Diff :=
  h.redo.getLast?

/-- `Syntax::TEXT` (`lang.rs`). -/
def TEXT : SyntaxTable :=
  SyntaxTable.mk Language.Text [] [] [] [] [] none none 0

/-- `Syntax::UNKNOWN` (`lang.rs`): `TEXT` with the language replaced. -/
def UNKNOWN : SyntaxTable :=
  SyntaxTable.mk Language.Unknown [] [] [] [] [] none none 0

/-- `Syntax::RUST` (`lang.rs`); the other language tables are
structurally identical data and are not needed by the claims. -/
def RUST : SyntaxTable :=
  SyntaxTable.mk Language.Rust
    (["as", "const", "crate", "enum", "extern", "false", "fn", "impl",
      "let", "mod", "move", "mut", "pub", "ref", "self", "Self",
      "static", "struct", "super", "trait", "true", "type", "unsafe",
      "use", "where", "Some", "None", "Err", "Ok", "'static", "'_"].map
        String.toList)
    (["break", "continue", "else", "for", "if", "in", "loop", "match",
      "return", "while"].map String.toList)
    (["u8", "u16", "u32", "u64", "u128", "i8", "i16", "i32", "i64",
      "i128", "usize", "isize", "str", "bool", "String", "Vec"].map
        String.toList)
    (["print!", "println!", "eprint!", "eprintln!", "env!",
      "macro_rules!", "vec!"].map String.toList)
    (["::"].map String.toList)
    (some ("//".toList))
    (some ("/*".toList, "*/".toList))
    (HIGHLIGHT_NUMBERS ||| HIGHLIGHT_STRINGS ||| HIGHLIGHT_IDENTS |||
      NESTED_COMMENTS ||| CAPITAL_AS_TYPES)

/-- Embeds `buffer::TextBuffer` (field `syntax` is spelled `syn`
because `syntax` is reserved). -/
structure TextBuffer where
  rows : List Row
  file_name : List Char
  is_dirty : Bool
  saved_cursor_pos : Pos
  select_anchor : Option Pos
  in_select_mode : Bool
  syn : SyntaxTable
  history : History
deriving DecidableEq, Repr

/-- `TextBuffer::new()`. -/
def TextBuffer.new : TextBuffer :=
  TextBuffer.mk [] [] false (Pos.mk 0 0) none false UNKNOWN History.new

/-- `TextBuffer::num_rows`. -/
def TextBuffer.num_rows (b : TextBuffer) : Nat := b.rows.length

/-- Embeds `TextBuffer::row_at` (`buffer.rs` 83-89) with indexing
panics modelled as `none`: an out-of-range index is replaced by
`num_rows() - 1`, which on a zero-row buffer is the underflowing
`0 - 1` and indexes an empty vector. -/
def TextBuffer.row_at (b : TextBuffer) (idx : Nat) : Option Row :=
  if idx ≥ b.num_rows then b.rows.get? (b.num_rows - 1)
  else b.rows.get? idx

/-- `TextBuffer::make_dirty`: mark every row and the buffer dirty. -/
def TextBuffer.make_dirty (b : TextBuffer) : TextBuffer :=
  { b with
      rows := b.rows.map Row.make_dirty,
      is_dirty := true }

/-- Embeds `TextBuffer::insert_rows_no_diff` (`buffer.rs` 142-186).
The direct vector indexing / `split_off` of the source assume (per its
doc comment) a valid `pos`; they are modelled totally with
`getD`/`take`/`drop`, which agree with the source on valid input. -/
def TextBuffer.insert_rows_no_diff (b : TextBuffer) (pos : Pos)
    (rows : List Row) (config : Config) : TextBuffer × Pos :=
  match rows with
  | [] => (b, pos)
  | first :: _ =>
    let b := if b.rows.isEmpty then { b with rows := b.rows ++ [Row.new] } else b
    let num_inserted := rows.length
    let stx := b.syn
    -- First row (`row_at_mut(pos.y())` clamps the row index)
    let yIdx := if pos.y ≥ b.rows.length then b.rows.length - 1 else pos.y
    let row := b.rows.getD yIdx Row.new
    let remaining := row.chars.drop pos.x
    let row := Row.make_dirty
      (Row.update { row with chars := row.chars.take pos.x ++ first.chars }
        config stx)
    let bRows := b.rows.set yIdx row
    let res_pos := if num_inserted > 1 then Pos.mk 0 (pos.y + num_inserted - 1) else pos
    -- Remaining rows (split tail at pos.y + 1, splice the rest in)
    let bRows :=
      if num_inserted > 1 then
        bRows.take (pos.y + 1) ++ (rows.drop 1).map Row.make_dirty ++
          bRows.drop (pos.y + 1)
      else bRows
    -- Last row: append remaining text from the original first row
    let last_row := bRows.getD res_pos.y Row.new
    let res_pos := Pos.mk last_row.rsize res_pos.y
    let last_row := Row.update { last_row with chars := last_row.chars ++ remaining }
      config stx
    let bRows := bRows.set res_pos.y last_row
    (TextBuffer.make_dirty { b with rows := bRows }, res_pos)

/-- Embeds `TextBuffer::insert_rows` (`buffer.rs` 126-135): record the
`Insert` diff, then splice. -/
def TextBuffer.insert_rows (b : TextBuffer) (pos : Pos) (rows : List Row)
    (config : Config) : TextBuffer × Pos :=
  let b := { b with
    history := b.history.perform (Diff.Insert pos (rows.map Row.chars)) }
  b.insert_rows_no_diff pos rows config

/-- Embeds `TextBuffer::remove_rows_no_diff` (`buffer.rs` 205-245).
As with insertion, the source's direct indexing assumes valid
positions and is modelled totally. -/
def TextBuffer.remove_rows_no_diff (b : TextBuffer) (from_ : Pos)
    (rows : List (List Char)) (config : Config) : TextBuffer × Pos :=
  let to_ : Pos :=
    match rows with
    | [] => from_
    | [row] => Pos.add from_ (Pos.mk row.length 0)
    | _ => Pos.mk (rows.getLast?.getD []).length (from_.y + rows.length - 1)
  if from_ = to_ then (b, from_)
  else
    let from_cx := Row.rx_to_cx ((b.row_at from_.y).getD Row.new) from_.x config
    let to_cx := Row.rx_to_cx ((b.row_at to_.y).getD Row.new) to_.x config
    let lines_removed := to_.y - from_.y
    let bRows :=
      if lines_removed == 0 then
        let r := b.rows.getD from_.y Row.new
        b.rows.set from_.y
          { r with chars := r.chars.take from_cx ++ r.chars.drop to_cx }
      else
        -- erase the tail of the first affected row
        let r := b.rows.getD from_.y Row.new
        let rows1 := b.rows.set from_.y { r with chars := r.chars.take from_cx }
        -- drain(from.y + 1 .. to.y)
        let rows2 := rows1.take (from_.y + 1) ++ rows1.drop to_.y
        if from_.y + 1 < rows2.length then
          -- trim the following row's prefix, merge it, delete it
          let nextRow := rows2.getD (from_.y + 1) Row.new
          let trimmed := nextRow.chars.drop to_cx
          let rows3 := rows2.take (from_.y + 1) ++ rows2.drop (from_.y + 2)
          let fr := rows3.getD from_.y Row.new
          rows3.set from_.y { fr with chars := fr.chars ++ trimmed }
        else rows2
    let fr := bRows.getD from_.y Row.new
    let bRows := bRows.set from_.y (Row.update fr config b.syn)
    (TextBuffer.make_dirty { b with rows := bRows }, from_)

/-- Embeds `TextBuffer::remove_rows` (`buffer.rs` 189-198): record the
`Remove` diff, then splice. -/
def TextBuffer.remove_rows (b : TextBuffer) (from_ : Pos)
    (rows : List (List Char)) (config : Config) : TextBuffer × Pos :=
  let b := { b with history := b.history.perform (Diff.Remove from_ rows) }
  b.remove_rows_no_diff from_ rows config

/-- Embeds `TextBuffer::undo` (`buffer.rs` 271-281): apply the inverse
of the current diff, then pop the applied stack; `None` (with the
buffer untouched) when there is no current diff. -/
def TextBuffer.undo (b : TextBuffer) (config : Config) :
    TextBuffer × Option Pos :=
  match b.history.current with
  | none => (b, none)
  | some (Diff.Insert p rows) =>
      let bp := b.remove_rows_no_diff p rows config
      match bp.1.history.undo_step with
      | none => (bp.1, none)
      | some h => ({ bp.1 with history := h }, some bp.2)
  | some (Diff.Remove p rows) =>
      let bp := b.insert_rows_no_diff p
        (rows.map (fun chars => Row.from_chars chars config b.syn)) config
      match bp.1.history.undo_step with
      | none => (bp.1, none)
      | some h => ({ bp.1 with history := h }, some bp.2)

/-- Embeds `TextBuffer::redo` (`buffer.rs` 283-293): move the undone
diff back, then apply the (re-inverted) current diff forward. -/
def TextBuffer.redo (b : TextBuffer) (config : Config) :
    TextBuffer × Option Pos :=
  match b.history.redo_step with
  | none => (b, none)
  | some h =>
      let b1 := { b with history := h }
      match b1.history.current with
      | none => (b1, none)
      | some (Diff.Remove p rows) =>
          let bp := b1.remove_rows_no_diff p rows config
          (bp.1, some bp.2)
      | some (Diff.Insert p rows) =>
          let bp := b1.insert_rows_no_diff p
            (rows.map (fun chars => Row.from_chars chars config b1.syn)) config
          (bp.1, some bp.2)

/-- The logical text of a buffer: each row's `chars`. -/
def rows_chars (b : TextBuffer) : List (List Char) :=
  b.rows.map Row.chars

/-- `Config::default()`'s `tab_stop` (`config.rs` line 71). -/
def default_config : Config := Config.mk 4

/-- A syntax table none of whose word lists or block-comment markers
contain an empty string.  Every table defined in `lang.rs` satisfies
this; a degenerate table with an empty entry would make the scan loop
of `update_highlight` stop consuming input (an infinite loop in the
source). -/
def wf_syntax_table (stx : SyntaxTable) : Bool :=
  stx.keywords.all (fun w => !w.isEmpty) &&
  stx.flow_keywords.all (fun w => !w.isEmpty) &&
  stx.common_types.all (fun w => !w.isEmpty) &&
  stx.meta_keywords.all (fun w => !w.isEmpty) &&
  (match stx.multi_comment with
   | some p => !p.1.isEmpty && !p.2.isEmpty
   | none => true)

/-- The property a single scan-loop iteration guarantees: a `break`
leaves a fully built tag array; a `continue` leaves `hl` in sync with
the strictly advanced position, still within the render text. -/
def StepBound (render : List Char) (i : Nat) : HlAction → Prop
  | HlAction.terminate hl2 => hl2.length = render.length
  | HlAction.advance hl2 i2 _ _ _ =>
      hl2.length = i2 ∧ i < i2 ∧ i2 ≤ render.length

/-- C3 scenario: the one-row buffer `["xy"]`. -/
def c3_buffer : TextBuffer :=
  { TextBuffer.new with
      rows := [Row.from_chars "xy".toList default_config UNKNOWN] }

/-- C3 scenario: insert the block `["ab", "cd"]` at `Pos(1, 0)`. -/
def c3_insert : TextBuffer × Pos :=
  c3_buffer.insert_rows (Pos.mk 1 0)
    [Row.from_chars "ab".toList default_config UNKNOWN,
     Row.from_chars "cd".toList default_config UNKNOWN]
    default_config

/-- C1 scenario, first edit: insert `"\tq"` into the empty buffer at
`Pos(0, 0)`. -/
def c1_buf1 : TextBuffer :=
  (TextBuffer.new.insert_rows (Pos.mk 0 0)
    [Row.from_chars "\tq".toList default_config UNKNOWN]
    default_config).1

/-- C1 scenario, second edit: insert `"Z"` at `Pos(2, 0)` (the end of
the two-character row `"\tq"`). -/
def c1_buf2 : TextBuffer :=
  (c1_buf1.insert_rows (Pos.mk 2 0)
    [Row.from_chars "Z".toList default_config UNKNOWN]
    default_config).1

/-- C1 scenario: the buffer after `undo` and then `redo`. -/
def c1_redone : TextBuffer :=
  (((c1_buf2.undo default_config).1).redo default_config).1

/-- C4 scenario: `Row::update` on the row `"a\t"` with tab stop 4. -/
def c4_row : Row :=
  Row.update { Row.new with chars := "a\t".toList } default_config TEXT

/-- C6 scenario: a row with chars `"abc"`. -/
def c6_row : Row := Row.from_chars "abc".toList default_config TEXT

/-- C8 witness scenario: a buffer with a single row. -/
def c8_buffer : TextBuffer :=
  { TextBuffer.new with rows := [Row.new] }

/-- C2 scenario: one single-character insert (the `i`-th edit inserts
`'a'` for `i = 0` and `'b'` afterwards, at the end of the only row,
recorded in history by `insert_rows`). -/
def c2_insert_step (b : TextBuffer) (i : Nat) : TextBuffer :=
  (b.insert_rows (Pos.mk i 0)
    [Row.from_chars [if i == 0 then 'a' else 'b'] default_config b.syn]
    default_config).1

/-- C2 scenario: the buffer after 51 sequential single-character
inserts starting from the empty buffer. -/
def c2_after_inserts : TextBuffer :=
  (List.range 51).foldl c2_insert_step TextBuffer.new

/-- C2 scenario: iterate `TextBuffer::undo`, collecting whether each
call succeeded. -/
def c2_undo_iter : Nat → TextBuffer → TextBuffer × List Bool
  | 0, b => (b, [])
  | n + 1, b =>
      let bp := b.undo default_config
      let rest := c2_undo_iter n bp.1
      (rest.1, bp.2.isSome :: rest.2)

/-- C2 scenario: the buffer after 50 undo calls. -/
def c2_after_undos : TextBuffer := (c2_undo_iter 50 c2_after_inserts).1

/-- C5 witness scenario: a row whose chars `"a\tb"` contain a tab. -/
def c5_row : Row :=
  Row.from_chars "a\tb".toList default_config TEXT

/-- C7 witness scenario: a Rust-like row exercising keyword, ident,
function, path, string, number and comment branches. -/
def c7_row : Row :=
  { Row.new with chars := "fn f(x: u8) s::g 1.5 \"a\\t\" Self // c /* d */".toList }

/-- C9: for every 8-bit (indeed every) flag value, the
`NESTED_COMMENTS` test and the `CAPITAL_AS_TYPES` test coincide,
because the two flag constants are the same bit (`0b0000_1000`): no
syntax table can enable nested block comments without also treating
capitalized identifiers as types, and vice versa. -/
theorem c9_flag_bit_shared :
    NESTED_COMMENTS = 8 ∧ CAPITAL_AS_TYPES = 8 ∧
    ∀ flags : Nat,
      checkflags NESTED_COMMENTS flags = checkflags CAPITAL_AS_TYPES flags :=
  ⟨rfl, rfl, fun _ => rfl⟩

/-- C10: `insert_rows_no_diff` with an empty rows vector returns the
given position and leaves the entire buffer state (rows, dirty flags,
history, everything) unchanged. -/
theorem c10_insert_empty_rows_noop :
    ∀ (b : TextBuffer) (pos : Pos) (config : Config),
      b.insert_rows_no_diff pos [] config = (b, pos) :=
  fun _ _ _ => rfl

/-- C3 counterexample: inserting `["ab", "cd"]` at `Pos(1, 0)` into the
buffer `["xy"]` does not return cursor `Position(1, 1)` (the source
returns the render length of the last inserted row, 2, as `x`). -/
theorem c3_cursor_not_1_1 : c3_insert.2 ≠ Pos.mk 1 1 := by decide

/-- C3 (amended): inserting `["ab", "cd"]` at `Pos(1, 0)` into the
buffer `["xy"]` produces the rows `["xab", "cdy"]` and returns cursor
`Position(2, 1)`. -/
theorem c3_insert_two_row_block :
    rows_chars c3_insert.1 = ["xab".toList, "cdy".toList] ∧
    c3_insert.2 = Pos.mk 2 1 := by decide

/-- C4: on the row `"a\t"` with tab stop 4, `Row::update` renders the
tab as exactly four spaces (render `"a    "`, length 5) although the
claim's next-multiple-of-the-tab-stop rule — the rule `cx_to_rx`
actually implements — would end the row at render column 4; the two
parts of the source disagree. -/
theorem c4_tab_rendered_as_fixed_width :
    c4_row.render = "a    ".toList ∧ c4_row.rsize = 5 ∧
    Row.cx_to_rx { Row.new with chars := "a\t".toList } 2 default_config = 4 := by
  decide

/-- C6: on the row `"abc"`, `chars_at` with the fully out-of-range
range `5..=7` returns `"c"` (the start bound clamps to `size - 1`),
not the empty string promised by the claim and the function's own doc
comment; and `chars_at` with the decreasing range `2..1` panics
(modelled as `none`) instead of clamping. -/
theorem c6_chars_at_clamps_not_empty :
    c6_row.chars_at (Bound.included 5) (Bound.included 7) = some ['c'] ∧
    c6_row.chars_at (Bound.included 2) (Bound.excluded 1) = none := by
  decide

/-- C1: after the edit sequence [insert `"\tq"` at `Pos(0,0)`, insert
`"Z"` at `Pos(2,0)`] the buffer holds `"\tqZ"`; `undo` followed by
`redo` yields `"\tqZZ"`, not the pre-undo chars content — the
undo/redo round trip fails because `insert_rows` reads `pos.x` as a
char index while `remove_rows` converts it as a render column. -/
theorem c1_undo_redo_roundtrip_fails_on_tab :
    rows_chars c1_buf2 = ["\tqZ".toList] ∧
    rows_chars c1_redone = ["\tqZZ".toList] ∧
    rows_chars c1_redone ≠ rows_chars c1_buf2 := by decide

/-- C8 counterexample: on a buffer with zero rows, `row_at` indexes the
empty row vector at the underflowed `num_rows() - 1` and panics
(modelled as `none`) rather than clamping and returning. -/
theorem c8_row_at_empty_buffer_panics :
    TextBuffer.row_at TextBuffer.new 0 = none := by decide

/-- C8 (amended): on every buffer with at least one row, `row_at`
clamps an out-of-range index to the last row and returns a row without
failing. -/
theorem c8_row_at_clamps_nonempty (b : TextBuffer) (idx : Nat)
    (h : b.rows ≠ []) :
    b.row_at idx = some (b.rows.getD (min idx (b.num_rows - 1)) Row.new) := by
  have hlen : 0 < b.rows.length := List.length_pos.mpr h
  unfold TextBuffer.row_at TextBuffer.num_rows
  by_cases hge : idx ≥ b.rows.length
  · have h1 : b.rows.length - 1 < b.rows.length := Nat.sub_lt hlen Nat.one_pos
    have hmin : min idx (b.rows.length - 1) = b.rows.length - 1 :=
      Nat.min_eq_right (Nat.le_trans (Nat.sub_le _ _) hge)
    simp [hge, hmin, List.get?_eq_getElem?, List.getElem?_eq_getElem h1,
      List.getD_eq_getElem?_getD]
  · have hlt : idx < b.rows.length := Nat.lt_of_not_le hge
    have hmin : min idx (b.rows.length - 1) = idx :=
      Nat.min_eq_left (Nat.le_sub_one_of_lt hlt)
    simp [hge, hmin, List.get?_eq_getElem?, List.getElem?_eq_getElem hlt,
      List.getD_eq_getElem?_getD]

/-- C8 witness: the amended theorem at the one-row buffer and the
out-of-range index 5. -/
theorem c8_row_at_clamps_nonempty_witness :
    c8_buffer.rows ≠ [] ∧
    c8_buffer.row_at 5 =
      some (c8_buffer.rows.getD (min 5 (c8_buffer.num_rows - 1)) Row.new) :=
  ⟨by decide, c8_row_at_clamps_nonempty c8_buffer 5 (by decide)⟩

set_option maxRecDepth 10000 in
/-- C2: starting from the empty buffer, after 51 sequential
single-character inserts (each recorded in history), exactly 50
consecutive undo calls succeed; the 51st undo returns `none` leaving
the buffer completely unchanged; and the character `'a'` inserted by
the first (oldest) edit is still present — the buffer is exactly
`["a"]`. -/
theorem c2_fifty_undos_then_none :
    (c2_undo_iter 50 c2_after_inserts).2 = List.replicate 50 true ∧
    c2_after_undos.undo default_config = (c2_after_undos, none) ∧
    rows_chars c2_after_undos = [['a']] := by decide

/-- The accumulated render column never decreases along the
`cx_to_rx` walk. -/
theorem cx_to_rx_go_ge (ts cx : Nat) (l : List Char) :
    ∀ (i rx : Nat), rx ≤ cx_to_rx_go ts cx l i rx := by
  induction l with
  | nil => intro i rx; simp [cx_to_rx_go]
  | cons ch rest ih =>
      intro i rx
      simp only [cx_to_rx_go]
      split
      · exact Nat.le_refl _
      · refine Nat.le_trans ?_ (ih (i + 1) _)
        split <;> omega

/-- Walking `rx_to_cx` back over the render column that `cx_to_rx`
reached after `cx` characters recovers `cx`, for any starting index
and accumulator kept in sync. -/
theorem rx_cx_roundtrip_go (ts : Nat) (l : List Char) :
    ∀ (i rx cx : Nat), i ≤ cx → cx ≤ i + l.length →
      rx_to_cx_go ts (cx_to_rx_go ts cx l i rx) l rx i = cx := by
  induction l with
  | nil =>
      intro i rx cx h1 h2
      simp only [List.length_nil, Nat.add_zero] at h2
      have : i = cx := Nat.le_antisymm h1 h2
      subst this
      simp [cx_to_rx_go, rx_to_cx_go]
  | cons ch rest ih =>
      intro i rx cx h1 h2
      by_cases hic : i = cx
      · subst hic
        have hbeq : (i == i) = true := beq_self_eq_true i
        rw [cx_to_rx_go, if_pos hbeq]
        rw [rx_to_cx_go]
        have hgt : (if ch == '\t' then rx + (ts - 1 - rx % ts) else rx) + 1 > rx := by
          split <;> omega
        rw [if_pos hgt]
      · have hbeq : (i == cx) = false := beq_eq_false_iff_ne.mpr hic
        rw [cx_to_rx_go, if_neg (by simp [hbeq])]
        rw [rx_to_cx_go]
        have hle : (if ch == '\t' then rx + (ts - 1 - rx % ts) else rx) + 1 ≤
            cx_to_rx_go ts cx rest (i + 1)
              ((if ch == '\t' then rx + (ts - 1 - rx % ts) else rx) + 1) :=
          cx_to_rx_go_ge ts cx rest (i + 1) _
        rw [if_neg (Nat.not_lt.mpr hle)]
        exact ih (i + 1) _ cx (by omega)
          (by rw [List.length_cons] at h2; omega)

/-- C5: for every row text (with zero or more tabs), every tab stop
at least 1, and every valid char index `cx` into the row,
`rx_to_cx (cx_to_rx cx) = cx`. -/
theorem c5_rx_cx_roundtrip (r : Row) (cx : Nat) (config : Config)
    (hts : 1 ≤ config.tab_stop) (hcx : cx ≤ r.chars.length) :
    r.rx_to_cx (r.cx_to_rx cx config) config = cx :=
  rx_cx_roundtrip_go config.tab_stop r.chars 0 0 cx (Nat.zero_le cx)
    (by simpa using hcx)

/-- C5 witness: the round trip at the tab-containing row `"a\tb"`,
tab stop 4, char index 3. -/
theorem c5_rx_cx_roundtrip_witness :
    1 ≤ default_config.tab_stop ∧ 3 ≤ c5_row.chars.length ∧
    c5_row.rx_to_cx (c5_row.cx_to_rx 3 default_config) default_config = 3 :=
  ⟨by decide, by decide,
    c5_rx_cx_roundtrip c5_row 3 default_config (by decide) (by decide)⟩

/-- If a nonempty word equals the clamped render slice
`rchars_at(i..i+len)` at an in-range position, the whole word lies
within the render text. -/
theorem rchars_match_bound (render : List Char) (i : Nat) (w : List Char)
    (hw : w ≠ []) (hi : i < render.length)
    (h : (w == rchars_sub render (Bound.included i)
      (Bound.excluded (i + w.length))) = true) :
    i + w.length ≤ render.length := by
  by_contra hgt
  push_neg at hgt
  have hne : render.isEmpty = false := by
    cases render
    · simp at hi
    · rfl
  have hj : i + w.length > render.length := hgt
  have hslice : rchars_sub render (Bound.included i)
      (Bound.excluded (i + w.length)) = [] := by
    unfold rchars_sub index_range sliceTotal
    simp [hne, hj, Nat.not_lt.mpr (Nat.le_of_lt hj)]
  rw [hslice] at h
  exact hw (by simpa using h)

/-- The backward reclassification walk preserves the tag array's
length. -/
theorem rewrite_go_length (tag : SyntaxHighlight) :
    ∀ (pos : Nat) (hl : List Highlight),
      (rewrite_go tag hl pos).length = hl.length := by
  intro pos
  induction pos with
  | zero =>
      intro hl
      rw [rewrite_go]
      rcases hget : hl.get? 0 with _ | h
      · simp [hget]
      · simp only [hget]
        split
        · simp [List.length_set]
        · rfl
  | succ p ih =>
      intro hl
      rw [rewrite_go]
      rcases hget : hl.get? (p + 1) with _ | h
      · simp [hget]
      · simp only [hget]
        split
        · have hih := ih (hl.set (p + 1) (Highlight.from_syntax_hl tag))
          simpa [List.length_set] using hih
        · rfl

/-- `rewrite_run` preserves the tag array's length. -/
theorem rewrite_run_length (tag : SyntaxHighlight) (hl : List Highlight)
    (i : Nat) : (rewrite_run tag hl i).length = hl.length := by
  cases i with
  | zero => rfl
  | succ k => exact rewrite_go_length tag k hl

/-- The path-delimiter fold of the fall-through tail preserves the tag
array's length. -/
theorem path_fold_length (render : List Char) (i : Nat) :
    ∀ (ds : List (List Char)) (hl : List Highlight),
      (ds.foldl (fun acc pd =>
        if pd == rchars_sub render (Bound.included i)
            (Bound.excluded (i + pd.length)) then
          rewrite_run SyntaxHighlight.Path acc i
        else acc) hl).length = hl.length := by
  intro ds
  induction ds with
  | nil => intro hl; rfl
  | cons d rest ih =>
      intro hl
      rw [List.foldl_cons, ih]
      split
      · exact rewrite_run_length _ _ _
      · rfl

/-- A list whose `isEmpty` test is negated-true is not `[]`. -/
theorem ne_nil_of_not_isEmpty {α : Sort _} {l : List α}
    (h : (!l.isEmpty) = true) : l ≠ [] := by
  cases l
  · simp at h
  · simp

/-- The line-comment branch breaks with a fully padded tag array. -/
theorem hl_ln_comment_bound {stx : SyntaxTable} {render : List Char}
    {i : Nat} {hl : List Highlight} {quote : Option Char} {act : HlAction}
    (hlen : hl.length = i) (hi : i < render.length)
    (h : hl_ln_comment stx render i hl quote = some act) :
    StepBound render i act := by
  unfold hl_ln_comment at h
  rcases hlc : stx.ln_comment with _ | lc
  · simp only [hlc] at h
    exact Option.noConfusion h
  · simp only [hlc] at h
    split at h
    · cases h
      simp only [StepBound, List.length_append, List.length_replicate]
      omega
    · exact Option.noConfusion h

/-- The block-comment branch advances by the (nonempty) marker length
or by one character. -/
theorem hl_multi_comment_bound {stx : SyntaxTable} {render : List Char}
    {i : Nat} {hl : List Highlight} {ips : Bool} {quote : Option Char}
    {nested : Nat} {act : HlAction}
    (hwf : wf_syntax_table stx = true)
    (hlen : hl.length = i) (hi : i < render.length)
    (h : hl_multi_comment stx render i hl ips quote nested = some act) :
    StepBound render i act := by
  unfold hl_multi_comment at h
  rcases hmc : stx.multi_comment with _ | ⟨ms, me⟩
  · simp only [hmc] at h
    exact Option.noConfusion h
  · simp only [hmc] at h
    have hmarks : ms ≠ [] ∧ me ≠ [] := by
      unfold wf_syntax_table at hwf
      simp only [hmc, Bool.and_eq_true] at hwf
      exact ⟨ne_nil_of_not_isEmpty hwf.2.1, ne_nil_of_not_isEmpty hwf.2.2⟩
    split at h
    · split at h
      · cases h
        refine ⟨by simp [hlen], ?_, ?_⟩
        · have := List.length_pos.mpr hmarks.1; omega
        · exact rchars_match_bound render i ms hmarks.1 hi (by assumption)
      · split at h
        · split at h
          · cases h
            refine ⟨by simp [hlen], ?_, ?_⟩
            · have := List.length_pos.mpr hmarks.2; omega
            · exact rchars_match_bound render i me hmarks.2 hi (by assumption)
          · cases h
            exact ⟨by simp [hlen], by omega, by omega⟩
        · exact Option.noConfusion h
    · exact Option.noConfusion h

/-- A single word block advances by the (nonempty) matched word's
length. -/
theorem hl_words_one_bound {render : List Char} {i : Nat}
    {hl : List Highlight} {quote : Option Char} {nested : Nat}
    {words : List (List Char)} {tag : SyntaxHighlight} {act : HlAction}
    (hwords : words.all (fun w => !w.isEmpty) = true)
    (hlen : hl.length = i) (hi : i < render.length)
    (h : hl_words_one render i hl quote nested words tag = some act) :
    StepBound render i act := by
  unfold hl_words_one at h
  rcases hfind : words.find? (fun w => matchWordAt render i w) with _ | w
  · simp only [hfind] at h
    exact Option.noConfusion h
  · simp only [hfind] at h
    cases h
    have hmem : w ∈ words := List.mem_of_find?_eq_some hfind
    have hwne : w ≠ [] :=
      ne_nil_of_not_isEmpty (List.all_eq_true.mp hwords w hmem)
    have hmatch : matchWordAt render i w = true := List.find?_some hfind
    have heq : (w == rchars_sub render (Bound.included i)
        (Bound.excluded (i + w.length))) = true := by
      unfold matchWordAt at hmatch
      simp only [Bool.and_eq_true] at hmatch
      exact hmatch.1
    refine ⟨by simp [hlen], ?_, ?_⟩
    · have := List.length_pos.mpr hwne; omega
    · exact rchars_match_bound render i w hwne hi heq

/-- The combined keyword/flowword/type/metaword block. -/
theorem hl_words_bound {stx : SyntaxTable} {render : List Char} {i : Nat}
    {hl : List Highlight} {ips : Bool} {quote : Option Char}
    {nested : Nat} {act : HlAction}
    (hwf : wf_syntax_table stx = true)
    (hlen : hl.length = i) (hi : i < render.length)
    (h : hl_words stx render i hl ips quote nested = some act) :
    StepBound render i act := by
  unfold wf_syntax_table at hwf
  simp only [Bool.and_eq_true] at hwf
  unfold hl_words at h
  split at h
  · rcases h1 : hl_words_one render i hl quote nested stx.keywords
        SyntaxHighlight.Keyword with _ | a1
    · rw [h1] at h
      simp only at h
      rcases h2 : hl_words_one render i hl quote nested stx.flow_keywords
          SyntaxHighlight.Flowword with _ | a2
      · rw [h2] at h
        simp only at h
        rcases h3 : hl_words_one render i hl quote nested stx.common_types
            SyntaxHighlight.Typ with _ | a3
        · rw [h3] at h
          simp only at h
          exact hl_words_one_bound hwf.1.2 hlen hi h
        · rw [h3] at h
          simp only at h
          cases h
          exact hl_words_one_bound hwf.1.1.2 hlen hi h3
      · rw [h2] at h
        simp only at h
        cases h
        exact hl_words_one_bound hwf.1.1.1.2 hlen hi h2
    · rw [h1] at h
      simp only at h
      cases h
      exact hl_words_one_bound hwf.1.1.1.1 hlen hi h1
  · exact Option.noConfusion h

/-- The string branch advances by one character, or two for an escape
pair (guarded to stay inside the render text). -/
theorem hl_strings_bound {stx : SyntaxTable} {render : List Char}
    {i : Nat} {hl : List Highlight} {ips : Bool} {quote : Option Char}
    {nested : Nat} {ch : Char} {act : HlAction}
    (hlen : hl.length = i) (hi : i < render.length)
    (h : hl_strings stx render i hl ips quote nested ch = some act) :
    StepBound render i act := by
  unfold hl_strings at h
  split at h
  · rcases quote with _ | delim
    · simp only at h
      split at h
      · cases h
        exact ⟨by simp [hlen], by omega, by omega⟩
      · exact Option.noConfusion h
    · simp only at h
      split at h
      · cases h
        refine ⟨by simp [hlen], by omega, ?_⟩
        have hguard : (ch == '\\' && decide (i + 1 < render.length)) = true := by
          assumption
        simp only [Bool.and_eq_true, decide_eq_true_eq] at hguard
        omega
      · cases h
        exact ⟨by simp [hlen], by omega, by omega⟩
  · exact Option.noConfusion h

/-- The number branch advances by one character. -/
theorem hl_number_bound {stx : SyntaxTable} {render : List Char}
    {i : Nat} {hl : List Highlight} {ips : Bool} {quote : Option Char}
    {nested : Nat} {prev_hl : Highlight} {ch : Char} {act : HlAction}
    (hlen : hl.length = i) (hi : i < render.length)
    (h : hl_number stx i hl ips quote nested prev_hl ch = some act) :
    StepBound render i act := by
  unfold hl_number at h
  split at h
  · cases h
    exact ⟨by simp [hlen], by omega, by omega⟩
  · exact Option.noConfusion h

/-- The identifier branch advances by one character. -/
theorem hl_ident_bound {stx : SyntaxTable} {render : List Char}
    {i : Nat} {hl : List Highlight} {ips : Bool} {quote : Option Char}
    {nested : Nat} {prev_hl : Highlight} {ch : Char} {act : HlAction}
    (hlen : hl.length = i) (hi : i < render.length)
    (h : hl_ident stx i hl ips quote nested prev_hl ch = some act) :
    StepBound render i act := by
  unfold hl_ident at h
  split at h
  · cases h
    exact ⟨by simp [hlen], by omega, by omega⟩
  · exact Option.noConfusion h

/-- The capitalized-run continuation branch advances by one
character. -/
theorem hl_capital_bound {stx : SyntaxTable} {render : List Char}
    {i : Nat} {hl : List Highlight} {quote : Option Char}
    {nested : Nat} {prev_hl : Highlight} {ch : Char} {act : HlAction}
    (hlen : hl.length = i) (hi : i < render.length)
    (h : hl_capital stx i hl quote nested prev_hl ch = some act) :
    StepBound render i act := by
  unfold hl_capital at h
  split at h
  · cases h
    exact ⟨by simp [hlen], by omega, by omega⟩
  · exact Option.noConfusion h

/-- The fall-through tail advances by one character; the backward
reclassifications only rewrite tags in place. -/
theorem hl_final_bound {stx : SyntaxTable} {render : List Char}
    {i : Nat} {hl : List Highlight} {quote : Option Char}
    {nested : Nat} {prev_hl : Highlight} {ch : Char}
    (hlen : hl.length = i) (hi : i < render.length) :
    StepBound render i (hl_final stx render i hl quote nested prev_hl ch) := by
  unfold hl_final
  refine ⟨?_, by omega, by omega⟩
  simp only [List.length_append, List.length_singleton]
  have h1 : (if prev_hl.syntax_hl == SyntaxHighlight.Ident && ch == '(' then
      rewrite_run SyntaxHighlight.Function hl i else hl).length = i := by
    split
    · rw [rewrite_run_length]; exact hlen
    · exact hlen
  split
  · rw [path_fold_length, h1]
  · rw [h1]

/-- One iteration of the scan loop satisfies the step bound. -/
theorem hl_step_bound {stx : SyntaxTable} {render : List Char} {i : Nat}
    {hl : List Highlight} {ips : Bool} {quote : Option Char}
    {nested : Nat} {ch : Char}
    (hwf : wf_syntax_table stx = true)
    (hlen : hl.length = i) (hi : i < render.length) :
    StepBound render i (hl_step stx render i hl ips quote nested ch) := by
  unfold hl_step
  rcases h1 : hl_ln_comment stx render i hl quote with _ | a1
  · rcases h2 : hl_multi_comment stx render i hl ips quote nested with _ | a2
    · rcases h3 : hl_words stx render i hl ips quote nested with _ | a3
      · rcases h4 : hl_strings stx render i hl ips quote nested ch with _ | a4
        · rcases h5 : hl_number stx i hl ips quote nested
              (if i > 0 then hl.getD (i - 1) Highlight.default
               else Highlight.default) ch with _ | a5
          · rcases h6 : hl_ident stx i hl ips quote nested
                (if i > 0 then hl.getD (i - 1) Highlight.default
                 else Highlight.default) ch with _ | a6
            · rcases h7 : hl_capital stx i hl quote nested
                  (if i > 0 then hl.getD (i - 1) Highlight.default
                   else Highlight.default) ch with _ | a7
              · simp only [h1, h2, h3, h4, h5, h6, h7]
                exact hl_final_bound hlen hi
              · simp only [h1, h2, h3, h4, h5, h6, h7]
                exact hl_capital_bound hlen hi h7
            · simp only [h1, h2, h3, h4, h5, h6]
              exact hl_ident_bound hlen hi h6
          · simp only [h1, h2, h3, h4, h5]
            exact hl_number_bound hlen hi h5
        · simp only [h1, h2, h3, h4]
          exact hl_strings_bound hlen hi h4
      · simp only [h1, h2, h3]
        exact hl_words_bound hwf hlen hi h3
    · simp only [h1, h2]
      exact hl_multi_comment_bound hwf hlen hi h2
  · simp only [h1]
    exact hl_ln_comment_bound hlen hi h1

/-- With enough fuel (one unit per remaining character plus one), the
scan loop of `update_highlight` produces one tag per render
character. -/
theorem hl_go_length (stx : SyntaxTable) (render : List Char)
    (hwf : wf_syntax_table stx = true) :
    ∀ (fuel i : Nat) (hl : List Highlight) (ips : Bool)
      (quote : Option Char) (nested : Nat),
      hl.length = i → i ≤ render.length → render.length ≤ i + fuel →
      (hl_go stx render fuel i hl ips quote nested).length = render.length := by
  intro fuel
  induction fuel with
  | zero =>
      intro i hl ips quote nested hlen h1 h2
      have : i = render.length := by omega
      simp only [hl_go]
      omega
  | succ fuel ih =>
      intro i hl ips quote nested hlen h1 h2
      rcases hch : render.get? i with _ | ch
      · have hge : render.length ≤ i := List.get?_eq_none.mp hch
        have : i = render.length := by omega
        simp only [hl_go, hch]
        omega
      · have hi : i < render.length := by
          by_contra hcon
          rw [List.get?_eq_none.mpr (Nat.le_of_not_lt hcon)] at hch
          exact Option.noConfusion hch
        have hstep := @hl_step_bound stx render i hl ips quote nested ch
          hwf hlen hi
        rcases hact : hl_step stx render i hl ips quote nested ch with hl2 | ⟨hl2, i2, ips2, q2, n2⟩
        · rw [hact] at hstep
          simp only [hl_go, hch, hact]
          exact hstep
        · rw [hact] at hstep
          obtain ⟨hlen2, hlt, hle2⟩ := hstep
          simp only [hl_go, hch, hact]
          exact ih i2 hl2 ips2 q2 n2 hlen2 hle2 (by omega)

/-- C7: for every row content, tab stop, and well-formed syntax table,
immediately after `Row::update` the highlight array covers the render
text exactly: `hl.len() == render.len()`. -/
theorem c7_hl_covers_render (r : Row) (config : Config)
    (stx : SyntaxTable) (hwf : wf_syntax_table stx = true) :
    (Row.update r config stx).hl.length =
      (Row.update r config stx).render.length := by
  unfold Row.update Row.update_highlight
  split
  · simp [Row.rsize]
  · simp only
    exact hl_go_length stx _ hwf (_ + 1) 0 [] true none 0 rfl
      (Nat.zero_le _) (by omega)

/-- C7 witness: the invariant at a Rust-like row mixing keywords,
identifiers, function calls, paths, strings, numbers and comments,
under the (well-formed) Rust syntax table. -/
theorem c7_hl_covers_render_witness :
    wf_syntax_table RUST = true ∧
    (Row.update c7_row default_config RUST).hl.length =
      (Row.update c7_row default_config RUST).render.length :=
  ⟨by decide, c7_hl_covers_render c7_row default_config RUST (by decide)⟩

end Mino
